import Mathlib

/-!
Shallow embedding of the muscledle study-deck and daily-challenge core
(`src/lib/study.ts`, `src/lib/daily.ts`, and the daily-progress handlers of
the page component).

Modelling conventions:
* JavaScript runtime values read back from `localStorage` are modelled by the
  `JsVal` type below; `JSON.parse` of the stored string is modelled by a
  storage cell that is either absent, unparseable (`corrupt`), or holds a
  parsed `JsVal`.
* JS numbers are modelled as `Int` (the code only ever computes with integer
  values; `typeof x === "number"` admits any number, and every claim settled
  here is settled on the integer subset).
* All 32-bit JS bitwise operations (`^`, `|`, `>>>`, `Math.imul`) are
  modelled on `Nat` reduced `% 2^32`; signed `ToInt32` views and the unsigned
  model have identical bit patterns, and every operation used commutes with
  that reinterpretation.
* `localStorage` writes are modelled as succeeding (the best-effort write is
  the code's intent; quota failures are swallowed by the source).
* Environment reads (`new Date()` in `nowSeed`, `Intl` date formatting in
  `dateKey`) are passed in as explicit `seed` / `key` / `date` parameters.
-/

namespace Muscledle

/-- A parsed JSON value as produced by `JSON.parse`. -/
inductive JsVal where
  | null
  | bool (b : Bool)
  | num (n : Int)
  | str (s : String)
  | arr (elems : List JsVal)
  | obj (fields : List (String × JsVal))

/-- JS truthiness of a parsed JSON value (`!v` in the source negates this). -/
def truthy : JsVal → Bool
  | .null => false
  | .bool b => b
  | .num n => n != 0
  | .str s => s != ""
  | .arr _ => true
  | .obj _ => true

/-- Property access `v.k` on a parsed JSON value: a field of an object, and
`undefined` (modelled `none`) on anything else. -/
def getField : JsVal → String → Option JsVal
  | .obj fields, k => (fields.find? (fun p => p.1 == k)).map (fun p => p.2)
  | _, _ => none

/-- Source `Region` from `lib/study.ts`: `"all" | "upper" | "lower"`. -/
inductive Region where
  | all
  | upper
  | lower
deriving DecidableEq

/-- The string literal a `Region` is persisted as. -/
def regionStr : Region → String
  | .all => "all"
  | .upper => "upper"
  | .lower => "lower"

/-- The region check of `safeLoad`: accepts exactly `"all"`, `"upper"`,
`"lower"` (as a JSON string) and nothing else. -/
def decodeRegion : JsVal → Option Region
  | .str "all" => some .all
  | .str "upper" => some .upper
  | .str "lower" => some .lower
  | _ => none

/-- Source `settings` payload of `StudyProgress`. -/
structure StudySettings where
  region : Region

/-- Source `StudyProgress` from `lib/study.ts`.  `order` holds parsed JSON values
because `safeLoad` only checks `Array.isArray(parsed.order)`, not the element
type; `index` is a JS number, which persisted data may set to any integer. -/
structure StudyProgress where
  order : List JsVal
  index : Int
  completed : Bool
  settings : StudySettings

/-- The JSON shape `safeSave` persists for a `StudyProgress`. -/
def encodeStudy (s : StudyProgress) : JsVal :=
  .obj [("order", .arr s.order),
        ("index", .num s.index),
        ("completed", .bool s.completed),
        ("settings", .obj [("region", .str (regionStr s.settings.region))])]

/-- The content of one `localStorage` key: absent, present but not valid JSON
(`JSON.parse` throws), or a parsed JSON value. -/
inductive Stored where
  | absent
  | corrupt
  | val (j : JsVal)

/-- The validation performed by `safeLoad` (`lib/study.ts:71-82`): the parsed
value must be truthy, `order` an array, `index` a number, `completed` a
boolean, `settings` truthy, and `settings.region` one of the three region
strings.  Field order of the checks mirrors the source's `||` chain. -/
def validateStudy (j : JsVal) : Option StudyProgress :=
  if !truthy j then none
  else
    match getField j "order" with
    | some (.arr order) =>
      match getField j "index" with
      | some (.num index) =>
        match getField j "completed" with
        | some (.bool completed) =>
          match getField j "settings" with
          | some settings =>
            if !truthy settings then none
            else
              match (getField settings "region").bind decodeRegion with
              | some region => some ⟨order, index, completed, ⟨region⟩⟩
              | none => none
          | none => none
        | _ => none
      | _ => none
    | _ => none

/-- Source `safeLoad` (`lib/study.ts:64-87`): absent or unparseable storage and any
value failing validation give `null`. -/
def safeLoad : Stored → Option StudyProgress
  | .absent => none
  | .corrupt => none
  | .val j => validateStudy j

/-- Source `safeSave` (`lib/study.ts:89-96`): serialize and store (modelled as
always succeeding). -/
def safeSave (s : StudyProgress) : Stored :=
  .val (encodeStudy s)

/-- A catalog entry as used by `lib/study.ts` (`MuscleLike`): the `region`
tag is optional. -/
structure MuscleLike where
  slug : String
  region : Option String
deriving DecidableEq

/-- Source `m.region || "all"`: a missing (`undefined`) or empty (falsy) tag
defaults to `"all"`. -/
def regionTag (m : MuscleLike) : String :=
  match m.region with
  | none => "all"
  | some r => if r = "" then "all" else r

/-- The filter predicate of `getSlugsByRegion` for `"upper"`/`"lower"`:
`(m.region || "all").toLowerCase() === want`. -/
def regionMatches (region : Region) (m : MuscleLike) : Bool :=
  (regionTag m).toLower == regionStr region

/-- Source `getSlugsByRegion` (`lib/study.ts:23-34`): `"all"` keeps everything;
otherwise keep entries whose tag — defaulting a missing or empty (falsy) tag
to `"all"` and lowercasing — equals the wanted region string.  The catalog is
an explicit parameter (the source reads the imported `muscles.json`). -/
def getSlugsByRegion (catalog : List MuscleLike) (region : Region) : List String :=
  if region = .all then catalog.map (fun m => m.slug)
  else (catalog.filter (regionMatches region)).map (fun m => m.slug)

/-- One call of the closure returned by `mulberry32` (`lib/study.ts:37-45`):
from the running state `t` (a JS double that grows without 32-bit wrapping,
hence `Nat`), produce the 32-bit output word and the next state.  All bitwise
steps read `t` through `ToUint32`, i.e. `% 2^32`. -/
def mulberry32Step (t : Nat) : Nat × Nat :=
  let t2 := t + 0x6d2b79f5
  let m := t2 % 4294967296
  let r := ((m ^^^ (m >>> 15)) * (1 ||| m)) % 4294967296
  let r2 := r ^^^ ((r + ((r ^^^ (r >>> 7)) * (61 ||| r)) % 4294967296) % 4294967296)
  (r2 ^^^ (r2 >>> 14), t2)

/-- The JS swap `[out[i], out[j]] = [out[j], out[i]]` on a list; indices out
of range leave the list unchanged (they are always in range in the loop). -/
def listSwap (l : List α) (i j : Nat) : List α :=
  match l[i]?, l[j]? with
  | some a, some b => (l.set i b).set j a
  | _, _ => l

/-- The Fisher–Yates loop of `seededShuffle` (`lib/study.ts:47-55`), counting
the loop variable `i` down to 1.  `Math.floor(rand() * (i + 1))` is exact
double arithmetic for the list lengths involved and equals
`⌊out * (i+1) / 2^32⌋`. -/
def shuffleGo (t : Nat) : Nat → List α → List α
  | 0, out => out
  | i + 1, out =>
    let p := mulberry32Step t
    let j := p.1 * (i + 2) / 4294967296
    shuffleGo p.2 i (listSwap out (i + 1) j)

/-- Source `seededShuffle` (`lib/study.ts:47-55`): copy, then run the loop from
`length - 1` with PRNG state `seed >>> 0`. -/
def seededShuffle (arr : List α) (seed : Nat) : List α :=
  shuffleGo (seed % 4294967296) (arr.length - 1) arr

/-- Source `buildDeck` (`lib/study.ts:99-103`): filter by region, shuffle with the
date seed (`nowSeed()` is an environment read, passed in as `seed`). -/
def buildDeck (catalog : List MuscleLike) (seed : Nat) (region : Region) : List String :=
  seededShuffle (getSlugsByRegion catalog region) seed

/-- Source `resetStudy` (`lib/study.ts:106-116`): fresh deck, `index = 0`,
`completed` iff the deck is empty; persist and return.  The `store` argument
is the prior cell content, which the source never reads here. -/
def resetStudy (catalog : List MuscleLike) (seed : Nat) (region : Region)
    (_store : Stored) : StudyProgress × Stored :=
  let order := buildDeck catalog seed region
  let fresh : StudyProgress :=
    ⟨order.map JsVal.str, 0, decide (order.length = 0), ⟨region⟩⟩
  (fresh, safeSave fresh)

/-- Source `loadStudy` (`lib/study.ts:119-123`): the persisted record if valid,
otherwise reinitialize for `"all"`. -/
def loadStudy (catalog : List MuscleLike) (seed : Nat) (store : Stored) :
    StudyProgress × Stored :=
  match safeLoad store with
  | some existing => (existing, store)
  | none => resetStudy catalog seed .all store

/-- Source `setStudyRegion` (`lib/study.ts:126-140`): no-op when the loaded region
already equals the requested one; otherwise rebuild, reset and persist. -/
def setStudyRegion (catalog : List MuscleLike) (seed : Nat) (region : Region)
    (store : Stored) : StudyProgress × Stored :=
  let cur := loadStudy catalog seed store
  if cur.1.settings.region = region then cur
  else
    let order := buildDeck catalog seed region
    let updated : StudyProgress :=
      ⟨order.map JsVal.str, 0, decide (order.length = 0), ⟨region⟩⟩
    (updated, safeSave updated)

/-- Source `advanceStudy` (`lib/study.ts:143-154`): no-op when completed; otherwise
clamp `index + 1` to `order.length - 1` and set `completed` from the
pre-clamp `index + 1`. -/
def advanceStudy (catalog : List MuscleLike) (seed : Nat) (store : Stored) :
    StudyProgress × Stored :=
  let cur := loadStudy catalog seed store
  if cur.1.completed then cur
  else
    let nextIndex := cur.1.index + 1
    let updated : StudyProgress :=
      { cur.1 with
        index := min nextIndex ((cur.1.order.length : Int) - 1)
        completed := decide ((cur.1.order.length : Int) ≤ nextIndex) }
    (updated, safeSave updated)

/-- JS array read `l[i]` with a JS-number index: `undefined` (`none`) when
negative or past the end. -/
def jsGet (l : List α) (i : Int) : Option α :=
  if 0 ≤ i then l[i.toNat]? else none

/-- Source `currentStudySlug` (`lib/study.ts:157-162`): `null` when the deck is
empty or completed, else `order[index] ?? null` (`undefined` collapses to
`null`, both modelled `none`). -/
def currentStudySlug (catalog : List MuscleLike) (seed : Nat) (store : Stored) :
    Option JsVal × Stored :=
  let cur := loadStudy catalog seed store
  (if cur.1.order.length = 0 then none
   else if cur.1.completed then none
   else jsGet cur.1.order cur.1.index, cur.2)

/-- Source `hashDateKey` (`lib/daily.ts:19-27`): 32-bit FNV-1a over the UTF-16 code
units of the key (`charCodeAt`; date keys are ASCII, where code units, bytes
and `Char.toNat` coincide).  `Math.imul` is multiplication `% 2^32`. -/
def hashDateKey (key : String) : Nat :=
  key.data.foldl (fun h c => ((h ^^^ c.toNat) * 0x01000193) % 4294967296) 0x811c9dc5

/-- Source `getDailyMuscleSlug` (`lib/daily.ts:30-40`).  The `Intl`-formatted
`dateKey(tz)` is an environment read and is passed in as `key`; the imported
catalog is a parameter (so the `Array.isArray` guard cannot fail in the
model, and only the emptiness guard remains). -/
def getDailyMuscleSlug (catalog : List MuscleLike) (key : String) : String :=
  if h : catalog.length = 0 then "unknown"
  else
    (catalog.get ⟨hashDateKey key % catalog.length,
      Nat.mod_lt _ (Nat.pos_of_ne_zero h)⟩).slug

/-- Source `DailyPersist` from the page component (`app/muscle/page.tsx`). -/
structure DailyPersist where
  date : String
  slug : String
  score : Int
  attempts : Int
  completed : Bool
deriving DecidableEq

/-- Content of the daily `localStorage` key.  `loadDaily` does not validate
the parsed JSON; the model restricts the parseable case to an actual record
(the shape every write of the source produces). -/
inductive DStored where
  | absent
  | corrupt
  | val (d : DailyPersist)
deriving DecidableEq

/-- Source `loadDaily` (page component): `null` when absent or unparseable. -/
def loadDaily : DStored → Option DailyPersist
  | .absent => none
  | .corrupt => none
  | .val d => some d

/-- Source `saveDaily` (page component), modelled as a successful write. -/
def saveDaily (d : DailyPersist) : DStored :=
  DStored.val d

/-- The fresh zeroed record the daily-init effect builds. -/
def freshDaily (date slug : String) : DailyPersist :=
  ⟨date, slug, 0, 0, false⟩

/-- The daily-init `useEffect` of the page component: with today's `date` key
and freshly computed daily `slug`, replace the persisted record when it is
absent, from another date, or stores a different slug; otherwise keep it.
Returns the record handed to `setDailyStats` and the resulting cell. -/
def ensureToday (date slug : String) (store : DStored) : DailyPersist × DStored :=
  match loadDaily store with
  | none => (freshDaily date slug, saveDaily (freshDaily date slug))
  | some existing =>
    if existing.date ≠ date ∨ existing.slug ≠ slug then
      (freshDaily date slug, saveDaily (freshDaily date slug))
    else (existing, store)

/-- Daily branch of the page's `onAttempt` handler: `attempts += 1`. -/
def recordAttempt (d : DailyPersist) : DailyPersist :=
  { d with attempts := d.attempts + 1 }

/-- Daily branch of the page's `reveal` handler: `attempts += 1`,
`completed = true`. -/
def recordReveal (d : DailyPersist) : DailyPersist :=
  { d with attempts := d.attempts + 1, completed := true }

/-- Daily branch of the page's `onCorrect` handler: `score += 1`,
`completed = true` (no `attempts` change). -/
def recordCorrect (d : DailyPersist) : DailyPersist :=
  { d with score := d.score + 1, completed := true }

/-- The successive records a correct daily-mode submission persists, in
write order.  `GuessPanel.submit` fires `onAttempt("correct")` and then
`onCorrect(entry)` synchronously in one event tick, and both handlers are
closures over the same render-scope `dailyStats` value `d` (they spread
`...dailyStats`, not a functional update), so the second write is computed
from the pre-attempt snapshot, not from the first write's result: storage
receives `recordAttempt d`, then `recordCorrect d`, and the last write is
the record that survives. -/
def dailyCorrectGuessWrites (d : DailyPersist) : List DailyPersist :=
  [recordAttempt d, recordCorrect d]

/-- "Entry matches region R": its region tag matches, or R is `"all"` (for
which `getSlugsByRegion` filters nothing). -/
def matchesRegion (region : Region) (m : MuscleLike) : Bool :=
  if region = .all then true else regionMatches region m

/-- Iterated `advanceStudy`: run `n` advances, each one loading the storage
cell the previous call wrote. -/
def iterAdvance (catalog : List MuscleLike) (seed : Nat) :
    Nat → StudyProgress × Stored → StudyProgress × Stored
  | 0, p => p
  | n + 1, p => iterAdvance catalog seed n (advanceStudy catalog seed p.2)

/-- The in-progress study state after `k` advances of a deck `ord`. -/
def midState (ord : List JsVal) (r : Region) (k : Nat) : StudyProgress :=
  ⟨ord, (k : Int), false, ⟨r⟩⟩

/-- The documented bounds invariant `0 <= index <= max(0, len(order)-1)`. -/
def boundsInv (s : StudyProgress) : Prop :=
  0 ≤ s.index ∧ s.index ≤ max 0 ((s.order.length : Int) - 1)

/-- The invariant every state freshly written by the study operations
satisfies: the index bounds, and `completed` whenever the deck is empty. -/
def goodState (s : StudyProgress) : Prop :=
  boundsInv s ∧ (s.order.length = 0 → s.completed = true)

/-- "order is not an array" in a persisted study record. -/
def orderNotArray (j : JsVal) : Bool :=
  match getField j "order" with
  | some (.arr _) => false
  | _ => true

/-- "index is not a number" in a persisted study record. -/
def indexNotNumber (j : JsVal) : Bool :=
  match getField j "index" with
  | some (.num _) => false
  | _ => true

/-- "completed is not a boolean" in a persisted study record. -/
def completedNotBoolean (j : JsVal) : Bool :=
  match getField j "completed" with
  | some (.bool _) => false
  | _ => true

/-- "settings missing" in a persisted study record. -/
def settingsMissing (j : JsVal) : Bool :=
  match getField j "settings" with
  | none => true
  | some _ => false

/-- "settings.region is not one of all/upper/lower". -/
def regionNotKnown (j : JsVal) : Bool :=
  match (getField j "settings").bind (fun st => (getField st "region").bind decodeRegion) with
  | some _ => false
  | none => true

/-- The invalid-shape disjunction exactly as the claim enumerates it. -/
def specInvalidShape (j : JsVal) : Bool :=
  orderNotArray j || indexNotNumber j || completedNotBoolean j ||
    settingsMissing j || regionNotKnown j

/-- Modelled from the spec: 32-bit FNV-1a exactly as the spec words it —
"initialize with `0x811c9dc5`; for each byte, XOR into the accumulator then
multiply by `0x01000193` mod 2^32" — by explicit recursion over the bytes. -/
def fnv1aSpecGo (acc : Nat) : List Nat → Nat
  | [] => acc
  | b :: bs => fnv1aSpecGo ((acc ^^^ b) * 0x01000193 % 4294967296) bs

/-- Modelled from the spec: the FNV-1a hash of a byte sequence. -/
def fnv1aSpec (bytes : List Nat) : Nat :=
  fnv1aSpecGo 0x811c9dc5 bytes

/-! ### Concrete fixtures for witnesses and counterexamples -/

/-- A small concrete catalog with unique slugs. -/
def catalogEx : List MuscleLike :=
  [⟨"biceps-brachii", some "upper"⟩, ⟨"deltoid", some "upper"⟩,
   ⟨"gluteus-maximus", some "lower"⟩]

/-- A structurally valid in-progress persisted study state. -/
def progressEx : StudyProgress :=
  ⟨[.str "deltoid", .str "biceps-brachii"], 1, false, ⟨.upper⟩⟩

/-- A structurally valid persisted study state with an empty deck. -/
def progressEmptyEx : StudyProgress :=
  ⟨[], 0, true, ⟨.all⟩⟩

/-- A persisted record that passes `safeLoad`'s type checks but stores an
out-of-bounds `index`. -/
def badIndexJson : JsVal :=
  .obj [("order", .arr [.str "deltoid"]), ("index", .num 5),
        ("completed", .bool false), ("settings", .obj [("region", .str "all")])]

/-- A persisted record whose `order` is not an array. -/
def badOrderJson : JsVal :=
  .obj [("order", .num 3), ("index", .num 0),
        ("completed", .bool false), ("settings", .obj [("region", .str "all")])]

/-! ### Persistence round-trip -/

theorem decodeRegion_regionStr (r : Region) :
    decodeRegion (.str (regionStr r)) = some r := by
  cases r <;> rfl

/-- What `safeSave` writes, `safeLoad` validates back unchanged. -/
theorem safeLoad_safeSave (s : StudyProgress) : safeLoad (safeSave s) = some s := by
  obtain ⟨o, i, c, ⟨r⟩⟩ := s
  cases r <;> rfl

/-- Lemma: `loadStudy` on a cell freshly written by `safeSave` returns that record
and leaves the cell alone. -/
theorem loadStudy_safeSave (catalog : List MuscleLike) (seed : Nat)
    (s : StudyProgress) :
    loadStudy catalog seed (safeSave s) = (s, safeSave s) := by
  simp [loadStudy, safeLoad_safeSave]

/-! ### The seeded shuffle permutes its input -/

theorem count_set_add [DecidableEq α] (l : List α) (i : Nat) (b x : α)
    (h : i < l.length) :
    (l.set i b).count x + (if l[i]? = some x then 1 else 0)
      = l.count x + (if b = x then 1 else 0) := by
  induction l generalizing i with
  | nil => simp at h
  | cons a t ih =>
    have flip : ∀ u v : α, (if u = v then (1 : Nat) else 0) = if v = u then 1 else 0 := by
      intro u v
      rcases Decidable.em (u = v) with h' | h' <;> simp [h', eq_comm]
    cases i with
    | zero =>
      simp only [List.set_cons_zero, List.getElem?_cons_zero, List.count_cons,
        Option.some.injEq, beq_iff_eq]
      exact Nat.add_right_comm _ _ _
    | succ n =>
      have h' : n < t.length := by simpa using h
      have ih' := ih n h'
      simp only [List.set_cons_succ, List.getElem?_cons_succ, List.count_cons]
      rw [Nat.add_right_comm, ih', Nat.add_right_comm]

theorem listSwap_perm [DecidableEq α] (l : List α) (i j : Nat) :
    (listSwap l i j).Perm l := by
  unfold listSwap
  split
  case _ a b hi hj =>
    rw [List.perm_iff_count]
    intro x
    have hil : i < l.length := (List.getElem?_eq_some.mp hi).1
    have hjl : j < l.length := (List.getElem?_eq_some.mp hj).1
    have hjl2 : j < (l.set i b).length := by simpa using hjl
    have h1 := count_set_add l i b x hil
    have h2 := count_set_add (l.set i b) j a x hjl2
    rw [hi] at h1
    by_cases hij : i = j
    · subst hij
      rw [List.getElem?_set_self hil] at h2
      simp only [Option.some.injEq] at h1 h2
      exact Nat.add_right_cancel (h2.trans h1)
    · rw [List.getElem?_set_ne hij, hj] at h2
      simp only [Option.some.injEq] at h1 h2
      exact Nat.add_right_cancel (h2.trans h1)
  case _ =>
    exact List.Perm.refl l

theorem shuffleGo_perm [DecidableEq α] (t n : Nat) (l : List α) :
    (shuffleGo t n l).Perm l := by
  induction n generalizing t l with
  | zero => exact List.Perm.refl l
  | succ m ih =>
    exact (ih _ _).trans (listSwap_perm l (m + 1) _)

theorem seededShuffle_perm [DecidableEq α] (arr : List α) (seed : Nat) :
    (seededShuffle arr seed).Perm arr :=
  shuffleGo_perm _ _ arr

/-- Function `getSlugsByRegion` is exactly "slugs of the matching entries": for
`"all"` the all-true filter keeps the whole catalog. -/
theorem getSlugsByRegion_eq_filter (catalog : List MuscleLike) (region : Region) :
    getSlugsByRegion catalog region
      = (catalog.filter (matchesRegion region)).map (fun m => m.slug) := by
  have hall : matchesRegion Region.all = fun _ => true := by
    funext m; rfl
  have hup : matchesRegion Region.upper = regionMatches Region.upper := by
    funext m; rfl
  have hlo : matchesRegion Region.lower = regionMatches Region.lower := by
    funext m; rfl
  cases region <;> simp [getSlugsByRegion, hall, hup, hlo, List.filter_true]

/-- C2. Assuming unique catalog slugs, `buildDeck` returns a permutation of
the slugs of the entries matching the region: same multiset as the filtered
list, same length as the filtered catalog, membership exactly the matching
slugs, and no slug twice. -/
theorem buildDeck_perm_filtered (catalog : List MuscleLike) (seed : Nat)
    (region : Region) (hu : (catalog.map (fun m => m.slug)).Nodup) :
    (buildDeck catalog seed region).Perm
        ((catalog.filter (matchesRegion region)).map (fun m => m.slug)) ∧
    (buildDeck catalog seed region).length
        = (catalog.filter (matchesRegion region)).length ∧
    (∀ s, s ∈ buildDeck catalog seed region ↔
        ∃ m, m ∈ catalog ∧ matchesRegion region m = true ∧ m.slug = s) ∧
    (buildDeck catalog seed region).Nodup := by
  have hperm : (buildDeck catalog seed region).Perm
      ((catalog.filter (matchesRegion region)).map (fun m => m.slug)) := by
    rw [buildDeck, ← getSlugsByRegion_eq_filter]
    exact seededShuffle_perm _ _
  have hnodup : ((catalog.filter (matchesRegion region)).map (fun m => m.slug)).Nodup :=
    hu.sublist ((catalog.filter_sublist).map (fun m => m.slug))
  refine ⟨hperm, ?_, ?_, hperm.nodup_iff.mpr hnodup⟩
  · rw [hperm.length_eq, List.length_map]
  · intro s
    rw [hperm.mem_iff]
    simp [List.mem_filter]
    tauto

/-- Witness for C2 at a concrete catalog and region. -/
theorem buildDeck_perm_filtered_witness :
    (catalogEx.map (fun m => m.slug)).Nodup ∧
    (buildDeck catalogEx 20251012 .upper).Perm
        ((catalogEx.filter (matchesRegion .upper)).map (fun m => m.slug)) :=
  ⟨by decide, (buildDeck_perm_filtered catalogEx 20251012 .upper (by decide)).1⟩

/-! ### Advancing through a deck -/

/-- Applying `advanceStudy` on a freshly saved non-completed state: increment with
clamp, detect completion on the pre-clamp `index + 1`, persist. -/
theorem advanceStudy_val (catalog : List MuscleLike) (seed : Nat)
    (s : StudyProgress) (h : s.completed = false) :
    advanceStudy catalog seed (safeSave s) =
      ({ s with
          index := min (s.index + 1) ((s.order.length : Int) - 1)
          completed := decide ((s.order.length : Int) ≤ s.index + 1) },
        safeSave
          { s with
            index := min (s.index + 1) ((s.order.length : Int) - 1)
            completed := decide ((s.order.length : Int) ≤ s.index + 1) }) := by
  simp [advanceStudy, loadStudy_safeSave, h]

/-- Applying `advanceStudy` on a freshly saved completed state is the identity, and
does not rewrite storage. -/
theorem advanceStudy_done (catalog : List MuscleLike) (seed : Nat)
    (s : StudyProgress) (h : s.completed = true) :
    advanceStudy catalog seed (safeSave s) = (s, safeSave s) := by
  simp [advanceStudy, loadStudy_safeSave, h]

/-- Peeling the last advance off an iteration. -/
theorem iterAdvance_succ_end (catalog : List MuscleLike) (seed n : Nat)
    (p : StudyProgress × Stored) :
    iterAdvance catalog seed (n + 1) p
      = advanceStudy catalog seed (iterAdvance catalog seed n p).2 := by
  induction n generalizing p with
  | zero => rfl
  | succ m ih =>
    have h : iterAdvance catalog seed (m + 2) p
        = iterAdvance catalog seed (m + 1) (advanceStudy catalog seed p.2) := rfl
    rw [h, ih]
    rfl

/-- After `k < L` advances from a fresh deck of length `L`, the state is
`midState` at position `k`, persisted. -/
theorem iterAdvance_mid (catalog : List MuscleLike) (seed : Nat)
    (ord : List JsVal) (r : Region) :
    ∀ k, k < ord.length →
      iterAdvance catalog seed k (midState ord r 0, safeSave (midState ord r 0))
        = (midState ord r k, safeSave (midState ord r k)) := by
  intro k
  induction k with
  | zero => intro _; rfl
  | succ n ih =>
    intro hk
    have hn : n < ord.length := Nat.lt_of_succ_lt hk
    rw [iterAdvance_succ_end, ih hn, advanceStudy_val catalog seed _ rfl]
    have hidx : min ((midState ord r n).index + 1)
        (((midState ord r n).order.length : Int) - 1) = ((n + 1 : Nat) : Int) := by
      have h1 : ((n : Int) + 1) ≤ (ord.length : Int) - 1 := by omega
      simp only [midState]
      rw [min_eq_left h1]
      push_cast
      ring
    have hcmp : decide (((midState ord r n).order.length : Int)
        ≤ (midState ord r n).index + 1) = false := by
      simp only [midState, decide_eq_false_iff_not]
      omega
    rw [hidx, hcmp]
    rfl

/-- On a non-empty deck, `resetStudy` produces exactly the persisted
`midState` at position 0. -/
theorem resetStudy_eq_mid (catalog : List MuscleLike) (seed : Nat)
    (region : Region) (store : Stored)
    (h : 1 ≤ (buildDeck catalog seed region).length) :
    resetStudy catalog seed region store
      = (midState ((buildDeck catalog seed region).map JsVal.str) region 0,
         safeSave (midState ((buildDeck catalog seed region).map JsVal.str) region 0)) := by
  have hd : decide ((buildDeck catalog seed region).length = 0) = false := by
    simp only [decide_eq_false_iff_not]
    omega
  simp only [resetStudy, midState, hd, Nat.cast_zero]

/-- Advancing a fresh deck of length `L` exactly `L` times pins the state at
the last index with `completed` set, persisted. -/
theorem iterAdvance_complete (catalog : List MuscleLike) (seed : Nat)
    (ord : List JsVal) (r : Region) (hpos : 1 ≤ ord.length) :
    iterAdvance catalog seed ord.length (midState ord r 0, safeSave (midState ord r 0))
      = (⟨ord, (ord.length : Int) - 1, true, ⟨r⟩⟩,
         safeSave ⟨ord, (ord.length : Int) - 1, true, ⟨r⟩⟩) := by
  obtain ⟨M, hM⟩ : ∃ M, ord.length = M + 1 := ⟨ord.length - 1, by omega⟩
  rw [hM, iterAdvance_succ_end,
    iterAdvance_mid catalog seed ord r M (by omega),
    advanceStudy_val catalog seed _ rfl]
  have hidx : min ((midState ord r M).index + 1)
      (((midState ord r M).order.length : Int) - 1) = ((M + 1 : Nat) : Int) - 1 := by
    simp only [midState]
    rw [hM, min_eq_right (by push_cast; omega)]
  have hcmp : decide (((midState ord r M).order.length : Int)
      ≤ (midState ord r M).index + 1) = true := by
    simp only [midState, decide_eq_true_eq]
    omega
  rw [hidx, hcmp]
  rfl

/-- The four C1 facts, over an abstract starting pair known to be the
persisted position-0 state of a non-empty deck. -/
theorem iterAdvance_spec (catalog : List MuscleLike) (seed : Nat)
    (ord : List JsVal) (r : Region) (p0 : StudyProgress × Stored) (L : Nat)
    (hp0 : p0 = (midState ord r 0, safeSave (midState ord r 0)))
    (hL : L = ord.length) (hpos : 1 ≤ ord.length) :
    (∀ k, k < L → (iterAdvance catalog seed k p0).1.completed = false ∧
        (iterAdvance catalog seed k p0).1.index = (k : Int)) ∧
    (iterAdvance catalog seed L p0).1.completed = true ∧
    (iterAdvance catalog seed L p0).1.index = (L : Int) - 1 ∧
    advanceStudy catalog seed (iterAdvance catalog seed L p0).2
      = iterAdvance catalog seed L p0 := by
  subst hp0
  subst hL
  refine ⟨?_, ?_, ?_, ?_⟩
  · intro k hk
    rw [iterAdvance_mid catalog seed ord r k hk]
    exact ⟨rfl, rfl⟩
  · rw [iterAdvance_complete catalog seed ord r hpos]
  · rw [iterAdvance_complete catalog seed ord r hpos]
  · rw [iterAdvance_complete catalog seed ord r hpos]
    exact advanceStudy_done catalog seed _ rfl

/-- C1.  From the freshly built state of a deck of length `L ≥ 1`: each of
the first `L - 1` advances moves the index to `k` with `completed` still
false, the `L`-th advance yields `completed = true` with the index pinned at
`L - 1`, and any further `advanceStudy` call returns state and storage
unchanged. -/
theorem advanceStudy_completion (catalog : List MuscleLike) (seed : Nat)
    (region : Region) (store : Stored) (p0 : StudyProgress × Stored) (L : Nat)
    (hp0 : p0 = resetStudy catalog seed region store)
    (hL : L = p0.1.order.length) (hpos : 1 ≤ L) :
    (∀ k, k < L → (iterAdvance catalog seed k p0).1.completed = false ∧
        (iterAdvance catalog seed k p0).1.index = (k : Int)) ∧
    (iterAdvance catalog seed L p0).1.completed = true ∧
    (iterAdvance catalog seed L p0).1.index = (L : Int) - 1 ∧
    advanceStudy catalog seed (iterAdvance catalog seed L p0).2
      = iterAdvance catalog seed L p0 := by
  have hbd : 1 ≤ (buildDeck catalog seed region).length := by
    have : p0.1.order.length = (buildDeck catalog seed region).length := by
      rw [hp0]
      simp [resetStudy]
    omega
  have hmid := resetStudy_eq_mid catalog seed region store hbd
  exact iterAdvance_spec catalog seed ((buildDeck catalog seed region).map JsVal.str)
    region p0 L (hp0.trans hmid)
    (by rw [hL, hp0, hmid]; rfl)
    (by rw [List.length_map]; omega)

/-- Witness for C1: a concrete three-entry deck completes after three
advances. -/
theorem advanceStudy_completion_witness :
    1 ≤ (resetStudy catalogEx 20251012 Region.all Stored.absent).1.order.length ∧
    (iterAdvance catalogEx 20251012
        ((resetStudy catalogEx 20251012 Region.all Stored.absent).1.order.length)
        (resetStudy catalogEx 20251012 Region.all Stored.absent)).1.completed = true :=
  ⟨by decide,
    (advanceStudy_completion catalogEx 20251012 Region.all Stored.absent _ _ rfl rfl
      (by decide)).2.1⟩

/-! ### Region switching -/

/-- C3.  On a validly persisted state: requesting the persisted region is a
no-op on both the returned progress and storage; requesting a different
region returns exactly `resetStudy` for it — fresh shuffled order, index 0,
`completed` iff the new deck is empty. -/
theorem setStudyRegion_spec (catalog : List MuscleLike) (seed : Nat)
    (region : Region) (store : Stored) (s : StudyProgress)
    (h : safeLoad store = some s) :
    (s.settings.region = region →
      setStudyRegion catalog seed region store = (s, store)) ∧
    (s.settings.region ≠ region →
      setStudyRegion catalog seed region store
          = resetStudy catalog seed region store ∧
      (setStudyRegion catalog seed region store).1.index = 0 ∧
      (setStudyRegion catalog seed region store).1.completed
          = decide ((buildDeck catalog seed region).length = 0) ∧
      (setStudyRegion catalog seed region store).1.order
          = (buildDeck catalog seed region).map JsVal.str) := by
  have hload : loadStudy catalog seed store = (s, store) := by
    simp [loadStudy, h]
  constructor
  · intro he
    simp [setStudyRegion, hload, he]
  · intro hne
    have heq : setStudyRegion catalog seed region store
        = resetStudy catalog seed region store := by
      simp [setStudyRegion, hload, hne, resetStudy]
    refine ⟨heq, ?_, ?_, ?_⟩ <;> rw [heq] <;> simp [resetStudy]

/-- Witness for C3: both branches at a concrete persisted state. -/
theorem setStudyRegion_spec_witness :
    setStudyRegion catalogEx 7 Region.upper (safeSave progressEx)
        = (progressEx, safeSave progressEx) ∧
    setStudyRegion catalogEx 7 Region.lower (safeSave progressEx)
        = resetStudy catalogEx 7 Region.lower (safeSave progressEx) :=
  ⟨(setStudyRegion_spec catalogEx 7 Region.upper (safeSave progressEx) progressEx
      (safeLoad_safeSave progressEx)).1 rfl,
   ((setStudyRegion_spec catalogEx 7 Region.lower (safeSave progressEx) progressEx
      (safeLoad_safeSave progressEx)).2 (by decide)).1⟩

/-! ### Index bounds -/

theorem goodState_mkFresh (order : List String) (r : Region) :
    goodState ⟨order.map JsVal.str, 0, decide (order.length = 0), ⟨r⟩⟩ := by
  refine ⟨⟨le_refl 0, le_max_left 0 _⟩, ?_⟩
  intro h0
  rw [List.length_map] at h0
  simp [h0]

theorem resetStudy_goodState (catalog : List MuscleLike) (seed : Nat)
    (region : Region) (store : Stored) :
    goodState (resetStudy catalog seed region store).1 :=
  goodState_mkFresh (buildDeck catalog seed region) region

theorem loadStudy_goodState (catalog : List MuscleLike) (seed : Nat) (store : Stored)
    (hs : ∀ s, safeLoad store = some s → goodState s) :
    goodState (loadStudy catalog seed store).1 := by
  cases hld : safeLoad store with
  | some s =>
    simp only [loadStudy, hld]
    exact hs s hld
  | none =>
    simp only [loadStudy, hld]
    exact resetStudy_goodState catalog seed .all store

/-- C4 (amended).  Whenever every record that validates out of the prior
storage satisfies the strengthened invariant (bounds plus
"empty deck implies completed"), each of the four operations returns a state
satisfying it — in particular the documented bounds invariant. -/
theorem studyOps_bounds (catalog : List MuscleLike) (seed : Nat)
    (region : Region) (store : Stored)
    (hs : ∀ s, safeLoad store = some s → goodState s) :
    goodState (loadStudy catalog seed store).1 ∧
    goodState (resetStudy catalog seed region store).1 ∧
    goodState (setStudyRegion catalog seed region store).1 ∧
    goodState (advanceStudy catalog seed store).1 := by
  have hload := loadStudy_goodState catalog seed store hs
  refine ⟨hload, resetStudy_goodState catalog seed region store, ?_, ?_⟩
  · simp only [setStudyRegion]
    split
    · exact hload
    · exact goodState_mkFresh (buildDeck catalog seed region) region
  · simp only [advanceStudy]
    split
    · exact hload
    · rename_i hc
      obtain ⟨⟨hi0, hiB⟩, hempty⟩ := hload
      have hlen : 1 ≤ (loadStudy catalog seed store).1.order.length := by
        by_contra hl
        have h0 : (loadStudy catalog seed store).1.order.length = 0 := by omega
        exact hc (hempty h0)
      refine ⟨⟨?_, ?_⟩, ?_⟩
      · show (0 : Int) ≤ min ((loadStudy catalog seed store).1.index + 1)
          (((loadStudy catalog seed store).1.order.length : Int) - 1)
        exact le_min (by omega) (by omega)
      · show min ((loadStudy catalog seed store).1.index + 1)
            (((loadStudy catalog seed store).1.order.length : Int) - 1)
          ≤ max 0 (((loadStudy catalog seed store).1.order.length : Int) - 1)
        exact le_trans (min_le_right _ _) (le_max_right _ _)
      · intro h0
        have h0' : (loadStudy catalog seed store).1.order.length = 0 := h0
        exact absurd h0' (by omega)

/-- Counterexample for C4 as stated: a persisted record with `order` of
length 1 and `index = 5` passes `safeLoad`'s type checks, and `loadStudy`
returns it with the bounds invariant violated. -/
theorem loadStudy_bounds_cex :
    ¬ boundsInv (loadStudy catalogEx 20251012 (.val badIndexJson)).1 := by
  unfold boundsInv
  decide

/-- Witness for the amended C4 at absent storage. -/
theorem studyOps_bounds_witness :
    goodState (loadStudy catalogEx 20251012 Stored.absent).1 ∧
    goodState (advanceStudy catalogEx 20251012 Stored.absent).1 :=
  ⟨(studyOps_bounds catalogEx 20251012 Region.all Stored.absent
      (fun _ h => nomatch h)).1,
   (studyOps_bounds catalogEx 20251012 Region.all Stored.absent
      (fun _ h => nomatch h)).2.2.2⟩

/-! ### Malformed-storage resilience -/

/-- A record `safeLoad` accepts triggers none of the claim's invalid-shape
disjuncts. -/
theorem specInvalidShape_of_valid (j : JsVal) (s : StudyProgress)
    (h : validateStudy j = some s) : specInvalidShape j = false := by
  unfold validateStudy at h
  split at h
  · exact Option.noConfusion h
  · split at h <;> try exact Option.noConfusion h
    rename_i order hord
    split at h <;> try exact Option.noConfusion h
    rename_i index hidx
    split at h <;> try exact Option.noConfusion h
    rename_i completed hcomp
    split at h <;> try exact Option.noConfusion h
    rename_i settings hset
    split at h
    · exact Option.noConfusion h
    · split at h <;> try exact Option.noConfusion h
      rename_i region hreg
      simp [specInvalidShape, orderNotArray, indexNotNumber, completedNotBoolean,
        settingsMissing, regionNotKnown, hord, hidx, hcomp, hset, hreg]

/-- Any of the claim's invalid shapes is rejected by `safeLoad`'s
validation. -/
theorem validateStudy_none_of_specInvalid (j : JsVal)
    (h : specInvalidShape j = true) : validateStudy j = none := by
  cases hv : validateStudy j with
  | none => rfl
  | some s =>
    have hf := specInvalidShape_of_valid j s hv
    rw [h] at hf
    exact Bool.noConfusion hf

/-- C5.  For absent storage, unparseable text, or JSON of any of the claim's
invalid shapes, `loadStudy` returns the fresh `"all"` initialization (valid:
region `"all"`, index 0, good state); a structurally valid record is
returned as-is, storage untouched. -/
theorem loadStudy_malformed (catalog : List MuscleLike) (seed : Nat)
    (store : Stored)
    (h : store = .absent ∨ store = .corrupt ∨
        ∃ j, store = .val j ∧ specInvalidShape j = true) :
    loadStudy catalog seed store = resetStudy catalog seed .all store ∧
    (loadStudy catalog seed store).1.settings.region = .all ∧
    (loadStudy catalog seed store).1.index = 0 ∧
    goodState (loadStudy catalog seed store).1 ∧
    (∀ j s, validateStudy j = some s →
      loadStudy catalog seed (.val j) = (s, .val j)) := by
  have hnone : safeLoad store = none := by
    rcases h with rfl | rfl | ⟨j, rfl, hj⟩
    · rfl
    · rfl
    · exact validateStudy_none_of_specInvalid j hj
  have hload : loadStudy catalog seed store = resetStudy catalog seed .all store := by
    simp [loadStudy, hnone]
  refine ⟨hload, ?_, ?_, ?_, ?_⟩
  · rw [hload]; simp [resetStudy]
  · rw [hload]; simp [resetStudy]
  · rw [hload]; exact resetStudy_goodState catalog seed .all store
  · intro j s hjs
    simp [loadStudy, safeLoad, hjs]

/-- Witness for C5: a record whose `order` is a number is reinitialized; a
valid record round-trips. -/
theorem loadStudy_malformed_witness :
    loadStudy catalogEx 20251012 (.val badOrderJson)
        = resetStudy catalogEx 20251012 .all (.val badOrderJson) ∧
    loadStudy catalogEx 20251012 (.val (encodeStudy progressEx))
        = (progressEx, .val (encodeStudy progressEx)) :=
  ⟨(loadStudy_malformed catalogEx 20251012 (.val badOrderJson)
      (Or.inr (Or.inr ⟨badOrderJson, rfl, by decide⟩))).1,
   (loadStudy_malformed catalogEx 20251012 (.val badOrderJson)
      (Or.inr (Or.inr ⟨badOrderJson, rfl, by decide⟩))).2.2.2.2
      (encodeStudy progressEx) progressEx (safeLoad_safeSave progressEx)⟩

/-! ### Totality of the current-slug read -/

/-- C10.  `currentStudySlug` is a total function of the loaded state: `none`
on an empty deck, `none` once completed, and otherwise exactly the JS read
`order[index] ?? null`; whenever it returns a value, that value is an
element of `order`. -/
theorem currentStudySlug_total (catalog : List MuscleLike) (seed : Nat)
    (store : Stored) :
    ((loadStudy catalog seed store).1.order.length = 0 →
      (currentStudySlug catalog seed store).1 = none) ∧
    ((loadStudy catalog seed store).1.completed = true →
      (currentStudySlug catalog seed store).1 = none) ∧
    ((loadStudy catalog seed store).1.order.length ≠ 0 →
      (loadStudy catalog seed store).1.completed = false →
      (currentStudySlug catalog seed store).1
        = jsGet (loadStudy catalog seed store).1.order
            (loadStudy catalog seed store).1.index) ∧
    (∀ v, (currentStudySlug catalog seed store).1 = some v →
      v ∈ (loadStudy catalog seed store).1.order) := by
  refine ⟨?_, ?_, ?_, ?_⟩
  · intro h0
    simp [currentStudySlug, h0]
  · intro hc
    simp [currentStudySlug, hc]
  · intro h0 hc
    simp [currentStudySlug, h0, hc]
  · intro v hv
    simp only [currentStudySlug] at hv
    by_cases h0 : (loadStudy catalog seed store).1.order.length = 0
    · simp [h0] at hv
    · by_cases hc : (loadStudy catalog seed store).1.completed
      · simp [h0, hc] at hv
      · simp only [h0, hc, if_false, if_neg] at hv
        unfold jsGet at hv
        rcases Decidable.em (0 ≤ (loadStudy catalog seed store).1.index) with hp | hn
        · rw [if_pos hp] at hv
          obtain ⟨hlt, he⟩ := List.getElem?_eq_some.mp hv
          exact he ▸ List.getElem_mem hlt
        · rw [if_neg hn] at hv
          exact Option.noConfusion hv

/-- Witness for C10: the empty-deck case and the in-progress case at
concrete states. -/
theorem currentStudySlug_total_witness :
    (currentStudySlug catalogEx 7 (safeSave progressEmptyEx)).1 = none ∧
    (currentStudySlug catalogEx 7 (safeSave progressEx)).1
      = jsGet progressEx.order progressEx.index :=
  ⟨(currentStudySlug_total catalogEx 7 (safeSave progressEmptyEx)).1
      (by rw [loadStudy_safeSave]; rfl),
   (currentStudySlug_total catalogEx 7 (safeSave progressEx)).2.2.1
      (by rw [loadStudy_safeSave]; decide) (by rw [loadStudy_safeSave]; rfl)⟩

/-! ### The daily selector -/

/-- The FNV-1a fold from any accumulator, recursion form. -/
theorem foldl_fnv_eq_fnv1aSpecGo (cs : List Char) (acc : Nat) :
    cs.foldl (fun h c => ((h ^^^ c.toNat) * 0x01000193) % 4294967296) acc
      = fnv1aSpecGo acc (cs.map Char.toNat) := by
  induction cs generalizing acc with
  | nil => rfl
  | cons c t ih => exact ih _

/-- The source's fold agrees with the spec's recursive FNV-1a over the
characters' code points. -/
theorem hashDateKey_eq_fnv1aSpec (key : String) :
    hashDateKey key = fnv1aSpec (key.data.map Char.toNat) :=
  foldl_fnv_eq_fnv1aSpecGo key.data 0x811c9dc5

/-- C6.  For a non-empty catalog, the daily selector returns the slug at
position `h % catalog.length`, where `h` is exactly the spec's 32-bit FNV-1a
hash of the date key; being a pure function of catalog and key, repeated
calls on the same key agree. -/
theorem getDailyMuscleSlug_spec (catalog : List MuscleLike) (key : String)
    (h : catalog ≠ []) :
    hashDateKey key = fnv1aSpec (key.data.map Char.toNat) ∧
    (catalog.map (fun m => m.slug))[fnv1aSpec (key.data.map Char.toNat) % catalog.length]?
      = some (getDailyMuscleSlug catalog key) := by
  refine ⟨hashDateKey_eq_fnv1aSpec key, ?_⟩
  have hlen : catalog.length ≠ 0 := fun h0 => h (List.length_eq_zero.mp h0)
  have hlt : hashDateKey key % catalog.length < catalog.length :=
    Nat.mod_lt _ (Nat.pos_of_ne_zero hlen)
  rw [← hashDateKey_eq_fnv1aSpec key]
  simp only [getDailyMuscleSlug, dif_neg hlen]
  rw [List.getElem?_map, List.getElem?_eq_getElem hlt]
  rfl

/-- Witness for C6 at a concrete catalog and date key. -/
theorem getDailyMuscleSlug_spec_witness :
    catalogEx ≠ [] ∧
    (catalogEx.map (fun m => m.slug))[fnv1aSpec
        (("2024-01-02" : String).data.map Char.toNat) % catalogEx.length]?
      = some (getDailyMuscleSlug catalogEx "2024-01-02") :=
  ⟨by decide, (getDailyMuscleSlug_spec catalogEx "2024-01-02" (by decide)).2⟩

/-- C9.  An empty catalog gives the `"unknown"` sentinel (without throwing);
a non-empty catalog whose entries all have slugs other than `"unknown"`
never yields the sentinel. -/
theorem getDailyMuscleSlug_sentinel (catalog : List MuscleLike) (key : String) :
    getDailyMuscleSlug [] key = "unknown" ∧
    (catalog ≠ [] → (∀ m, m ∈ catalog → m.slug ≠ "unknown") →
      getDailyMuscleSlug catalog key ≠ "unknown") := by
  refine ⟨rfl, ?_⟩
  intro hne hslugs
  have hlen : catalog.length ≠ 0 := fun h0 => hne (List.length_eq_zero.mp h0)
  simp only [getDailyMuscleSlug, dif_neg hlen]
  exact hslugs _ (List.get_mem catalog _ _)

/-- Witness for C9 at a concrete catalog. -/
theorem getDailyMuscleSlug_sentinel_witness :
    getDailyMuscleSlug [] "2024-01-02" = "unknown" ∧
    getDailyMuscleSlug catalogEx "2024-01-02" ≠ "unknown" :=
  ⟨(getDailyMuscleSlug_sentinel ([] : List MuscleLike) "2024-01-02").1,
   (getDailyMuscleSlug_sentinel catalogEx "2024-01-02").2 (by decide) (by decide)⟩

/-! ### Daily record rollover -/

/-- C7.  The daily-init effect replaces the persisted record with a fresh
zeroed one (and persists it) exactly when the record is absent, dated
differently, or stores a different slug; otherwise it returns the existing
record and leaves storage untouched. -/
theorem ensureToday_spec (date slug : String) (store : DStored) :
    (loadDaily store = none →
      ensureToday date slug store
        = (freshDaily date slug, saveDaily (freshDaily date slug))) ∧
    (∀ ex, loadDaily store = some ex → (ex.date ≠ date ∨ ex.slug ≠ slug) →
      ensureToday date slug store
        = (freshDaily date slug, saveDaily (freshDaily date slug))) ∧
    (∀ ex, loadDaily store = some ex → ex.date = date → ex.slug = slug →
      ensureToday date slug store = (ex, store)) ∧
    (freshDaily date slug).date = date ∧
    (freshDaily date slug).slug = slug ∧
    (freshDaily date slug).score = 0 ∧
    (freshDaily date slug).attempts = 0 ∧
    (freshDaily date slug).completed = false := by
  refine ⟨?_, ?_, ?_, rfl, rfl, rfl, rfl, rfl⟩
  · intro h
    simp [ensureToday, h]
  · intro ex h hdiff
    simp [ensureToday, h, hdiff]
  · intro ex h hd hs
    simp [ensureToday, h, hd, hs]

/-- Witness for C7: rollover to a new date replaces the record; a matching
record is returned unchanged. -/
theorem ensureToday_spec_witness :
    ensureToday "2024-01-02" "deltoid"
        (.val ⟨"2024-01-01", "deltoid", 1, 3, true⟩)
      = (freshDaily "2024-01-02" "deltoid",
         saveDaily (freshDaily "2024-01-02" "deltoid")) ∧
    ensureToday "2024-01-02" "deltoid"
        (.val ⟨"2024-01-02", "deltoid", 1, 3, true⟩)
      = (⟨"2024-01-02", "deltoid", 1, 3, true⟩,
         .val ⟨"2024-01-02", "deltoid", 1, 3, true⟩) :=
  ⟨(ensureToday_spec "2024-01-02" "deltoid"
      (.val ⟨"2024-01-01", "deltoid", 1, 3, true⟩)).2.1
      ⟨"2024-01-01", "deltoid", 1, 3, true⟩ rfl (Or.inl (by decide)),
   (ensureToday_spec "2024-01-02" "deltoid"
      (.val ⟨"2024-01-02", "deltoid", 1, 3, true⟩)).2.2.1
      ⟨"2024-01-02", "deltoid", 1, 3, true⟩ rfl rfl rfl⟩

/-! ### Daily score/attempt invariant -/

/-- C8 (code bug).  A first-try correct guess in daily mode, starting from
the fresh zeroed record: the surviving (last) write is `recordCorrect`
applied to the stale pre-attempt snapshot, so the persisted record has
`score = 1`, `attempts = 0` and `completed = true` — violating the
documented invariant `score ≤ attempts` on the game's primary happy path. -/
theorem dailyCorrectGuess_stale :
    (dailyCorrectGuessWrites (freshDaily "2024-01-02" "deltoid")).getLast?
      = some (recordCorrect (freshDaily "2024-01-02" "deltoid")) ∧
    (recordCorrect (freshDaily "2024-01-02" "deltoid")).score = 1 ∧
    (recordCorrect (freshDaily "2024-01-02" "deltoid")).attempts = 0 ∧
    (recordCorrect (freshDaily "2024-01-02" "deltoid")).completed = true ∧
    ¬ ((recordCorrect (freshDaily "2024-01-02" "deltoid")).score
      ≤ (recordCorrect (freshDaily "2024-01-02" "deltoid")).attempts) := by
  decide

end Muscledle
